import Mathlib

/-
Shallow embedding of the configuration import/validation core of the
`odoo_config_management` repository.

Source files embedded:
  * `src/models/config_importer.py` (class `MinimalConfigImporter`)
  * `src/models/config_factory.py` (`validate_import_path`)
  * `src/models/yaml_storage.py` (`read_yaml` semantics, folded into the
    `YamlFile` type below)

Modelling conventions:
  * The Odoo record store (`self.env[...]`) is modelled as a `Store` of five
    live collections, passed and returned explicitly.
  * A snapshot record is a Python dict; a key the code subscripts with
    `record['field']` becomes an `Option` field, and a `none` there models the
    `KeyError` that the per-record `except` clause catches (the record is
    skipped, the count is not incremented).
  * A YAML document on disk is a `YamlFile`: `absent` (os.path.exists is
    false / FileNotFoundError, `read_yaml` returns `{}`), `corrupt`
    (`yaml.safe_load` raises, `read_yaml` re-raises), or `good content`
    (parse succeeded).  For entity documents the content is the value of
    `data.get(config_type, [])`: `none` when the top-level key is missing.
  * Record-store `create` applies the supplied fields over the collection's
    defaults; `write` overwrites exactly the supplied fields on every record
    matched by the preceding `search`.
-/

/-- A live `ir.config_parameter` record. -/
structure LiveParam where
  key : String
  value : String
deriving DecidableEq, Repr

/-- A snapshot ConfigParameter record (a parsed dict; missing keys are `none`). -/
structure ParamRecord where
  key : Option String := none
  value : Option String := none
deriving DecidableEq, Repr

/-- A live `ir.sequence` record. -/
structure LiveSeq where
  code : String := ""
  name : String := ""
  prefix_ : String := ""
  suffix : String := ""
  padding : Int := 0
  number_next : Int := 1
  number_increment : Int := 1
  active : Bool := true
deriving DecidableEq, Repr

/-- A snapshot Sequence record (a parsed dict; missing keys are `none`). -/
structure SeqRecord where
  code : Option String := none
  name : Option String := none
  prefix_ : Option String := none
  suffix : Option String := none
  padding : Option Int := none
  number_next : Option Int := none
  number_increment : Option Int := none
  active : Option Bool := none
deriving DecidableEq, Repr

/-- A live `res.groups` record (the importer only ever populates `name`). -/
structure LiveGroup where
  name : String
deriving DecidableEq, Repr

/-- A snapshot UserGroup record; the import path reads only `name`
(`category_id`, `implied_ids`, `users` appear in documents but are never read
by `_import_user_groups`). -/
structure GroupRecord where
  name : Option String := none
  category_id : Option String := none
  implied_ids : List String := []
  users : List String := []
deriving DecidableEq, Repr

/-- A live `ir.model.data` record. -/
structure LiveModelData where
  module : String := ""
  name : String := ""
  model : String := ""
  res_id : Int := 0
  noupdate : Bool := false
deriving DecidableEq, Repr

/-- A snapshot ExternalIdMapping record (a parsed dict; missing keys are `none`). -/
structure ModelDataRecord where
  module : Option String := none
  name : Option String := none
  model : Option String := none
  res_id : Option Int := none
  noupdate : Option Bool := none
deriving DecidableEq, Repr

/-- A live `ir.module.module` record (only the fields the importer reads). -/
structure LiveModule where
  name : String
  state : String
deriving DecidableEq, Repr

/-- A snapshot ModuleState record (a parsed dict; missing keys are `none`). -/
structure ModuleRecord where
  name : Option String := none
  state : Option String := none
deriving DecidableEq, Repr

/-- The live record store: the five collections `MinimalConfigImporter`
touches through `self.env`. -/
structure Store where
  params : List LiveParam := []
  sequences : List LiveSeq := []
  groups : List LiveGroup := []
  model_data : List LiveModelData := []
  modules : List LiveModule := []
deriving DecidableEq, Repr

/-- Result of `read_yaml` on one file, combined with the `os.path.exists`
check that `_import_config_type` performs first. -/
inductive YamlFile (α : Type) where
  | absent
  | corrupt (msg : String)
  | good (content : α)
deriving DecidableEq, Repr

/-- The source directory handed to `import_system_configs`: the manifest plus
the five entity documents.  The manifest content is reduced to the one thing
the code tests, truthiness of the parsed mapping (`if not manifest`), so its
payload is `true` iff the mapping is non-empty. -/
structure SourceDir where
  manifest : YamlFile Bool
  ir_config_parameters : YamlFile (Option (List ParamRecord))
  res_groups : YamlFile (Option (List GroupRecord))
  ir_sequences : YamlFile (Option (List SeqRecord))
  module_states : YamlFile (Option (List ModuleRecord))
  ir_model_data : YamlFile (Option (List ModelDataRecord))

/-- The value of `data.get(config_type, [])`. -/
def docRecords (o : Option (List α)) : List α := o.getD []

/-- One step of `_import_config_params`: `search([('key','=',key)])`, then
either overwrite `value` on every match or `create({key, value})`.
Factored on the raw key/value pair. -/
def applyKV (ps : List LiveParam) (k v : String) : List LiveParam :=
  if ps.any (fun p => decide (p.key = k)) then
    ps.map (fun p => if p.key = k then { p with value := v } else p)
  else
    ps ++ [{ key := k, value := v }]

/-- Loop body of `_import_config_params`.  `param_data['key']` is read first
(for the search domain); in the found branch `param_data['value']` is read
before the assignment, in the create branch inside the dict literal — so a
record missing either key raises before any store mutation and is skipped. -/
def paramStep (acc : List LiveParam × Nat) (d : ParamRecord) : List LiveParam × Nat :=
  match d.key, d.value with
  | some k, some v => (applyKV acc.1 k v, acc.2 + 1)
  | _, _ => acc

/-- `_import_config_params`: fold the loop body over the document records. -/
def import_config_params (store : Store) (ds : List ParamRecord) : Store × Nat :=
  let r := ds.foldl paramStep (store.params, 0)
  ({ store with params := r.1 }, r.2)

/-- `existing.write(update_data)` where `update_data = seq_data.copy()` with
`number_next` popped: every field present in the record is written except
`number_next`, which keeps its live value. -/
def writeSeqFields (r : SeqRecord) (s : LiveSeq) : LiveSeq :=
  { code := r.code.getD s.code
    name := r.name.getD s.name
    prefix_ := r.prefix_.getD s.prefix_
    suffix := r.suffix.getD s.suffix
    padding := r.padding.getD s.padding
    number_next := s.number_next
    number_increment := r.number_increment.getD s.number_increment
    active := r.active.getD s.active }

/-- `self.env['ir.sequence'].create(seq_data)`: present fields applied over
the collection defaults; `number_next` is included. -/
def createSeqFields (c : String) (r : SeqRecord) : LiveSeq :=
  { code := c
    name := r.name.getD ""
    prefix_ := r.prefix_.getD ""
    suffix := r.suffix.getD ""
    padding := r.padding.getD 0
    number_next := r.number_next.getD 1
    number_increment := r.number_increment.getD 1
    active := r.active.getD true }

/-- Loop body of `_import_sequences`: search by `code` (a record missing
`code` raises and is skipped), write-all-but-`number_next` on every match,
or create including `number_next`. -/
def seqStep (acc : List LiveSeq × Nat) (r : SeqRecord) : List LiveSeq × Nat :=
  match r.code with
  | none => acc
  | some c =>
    if acc.1.any (fun s => decide (s.code = c)) then
      (acc.1.map (fun s => if s.code = c then writeSeqFields r s else s), acc.2 + 1)
    else
      (acc.1 ++ [createSeqFields c r], acc.2 + 1)

/-- `_import_sequences`. -/
def import_sequences (store : Store) (ds : List SeqRecord) : Store × Nat :=
  let r := ds.foldl seqStep (store.sequences, 0)
  ({ store with sequences := r.1 }, r.2)

/-- Loop body of `_import_user_groups`: search by `name`; create a minimal
group only when no match exists, and only then increment the count. -/
def groupStep (acc : List LiveGroup × Nat) (r : GroupRecord) : List LiveGroup × Nat :=
  match r.name with
  | none => acc
  | some n =>
    if acc.1.any (fun g => decide (g.name = n)) then acc
    else (acc.1 ++ [{ name := n }], acc.2 + 1)

/-- `_import_user_groups`. -/
def import_user_groups (store : Store) (ds : List GroupRecord) : Store × Nat :=
  let r := ds.foldl groupStep (store.groups, 0)
  ({ store with groups := r.1 }, r.2)

/-- `existing.write(record_data)` for `ir.model.data`: every present field is
overwritten (there is no protected field for this type). -/
def writeXidFields (r : ModelDataRecord) (x : LiveModelData) : LiveModelData :=
  { module := r.module.getD x.module
    name := r.name.getD x.name
    model := r.model.getD x.model
    res_id := r.res_id.getD x.res_id
    noupdate := r.noupdate.getD x.noupdate }

/-- `self.env['ir.model.data'].create(record_data)`. -/
def createXidFields (m n : String) (r : ModelDataRecord) : LiveModelData :=
  { module := m
    name := n
    model := r.model.getD ""
    res_id := r.res_id.getD 0
    noupdate := r.noupdate.getD false }

/-- Loop body of `_import_external_ids`: search by the composite
`(module, name)` (a record missing either raises while the search domain is
built and is skipped), then upsert all fields. -/
def xidStep (acc : List LiveModelData × Nat) (r : ModelDataRecord) :
    List LiveModelData × Nat :=
  match r.module, r.name with
  | some m, some n =>
    if acc.1.any (fun x => decide (x.module = m) && decide (x.name = n)) then
      (acc.1.map (fun x => if x.module = m ∧ x.name = n then writeXidFields r x else x),
       acc.2 + 1)
    else
      (acc.1 ++ [createXidFields m n r], acc.2 + 1)
  | _, _ => acc

/-- `_import_external_ids`. -/
def import_external_ids (store : Store) (ds : List ModelDataRecord) : Store × Nat :=
  let r := ds.foldl xidStep (store.model_data, 0)
  ({ store with model_data := r.1 }, r.2)

/-- Loop body of `_import_module_states`: search by `name`; when found, read
`existing.state` and `module_data['state']` (a record missing `state` raises
after the search and is skipped), optionally log, and count; when not found,
only log.  No branch creates or writes. -/
def moduleStep (acc : Store × Nat) (r : ModuleRecord) : Store × Nat :=
  match r.name with
  | none => acc
  | some n =>
    if acc.1.modules.any (fun m => decide (m.name = n)) then
      match r.state with
      | none => acc
      | some _ => (acc.1, acc.2 + 1)
    else acc

/-- `_import_module_states`. -/
def import_module_states (store : Store) (ds : List ModuleRecord) : Store × Nat :=
  ds.foldl moduleStep (store, 0)

/-- Return dict of `_import_config_type`: either
`{'success': True, 'config_type': ..., 'imported_records': ...}` or
`{'success': False, 'config_type': ..., 'error': ...}` (the informational
`'message'` of the file-not-found case is not modelled). -/
inductive TypeResult where
  | ok (config_type : String) (imported_records : Nat)
  | err (config_type : String) (error : String)
deriving DecidableEq, Repr

/-- The `config_type` field of a `_import_config_type` result. -/
def TypeResult.ctype : TypeResult → String
  | .ok c _ => c
  | .err c _ => c

/-- The records contributed to `imported_count` by one type result. -/
def TypeResult.count : TypeResult → Nat
  | .ok _ n => n
  | .err _ _ => 0

/-- Body of `_import_config_type` once the file has been read: shared shape
over the five entity types. -/
def runTypeFile (store : Store) (name : String) (f : YamlFile (Option (List α)))
    (imp : Store → List α → Store × Nat) : Store × TypeResult :=
  match f with
  | .absent => (store, .ok name 0)
  | .corrupt msg => (store, .err name msg)
  | .good doc =>
    let r := imp store (docRecords doc)
    (r.1, .ok name r.2)

/-- Heterogeneous view of one named file of the source directory: which file
the path `f"{source_path}/{config_type}.yml"` denotes, tagged with the
reconciliation routine `import_methods` dispatches to for that name. -/
inductive FileView where
  | fparams (f : YamlFile (Option (List ParamRecord)))
  | fgroups (f : YamlFile (Option (List GroupRecord)))
  | fseqs (f : YamlFile (Option (List SeqRecord)))
  | fmodules (f : YamlFile (Option (List ModuleRecord)))
  | fxids (f : YamlFile (Option (List ModelDataRecord)))
  | fnone
deriving DecidableEq

/-- The file a given `config_type` name denotes in the source directory. -/
def fileOf (src : SourceDir) : String → FileView
  | "ir_config_parameters" => .fparams src.ir_config_parameters
  | "res_groups" => .fgroups src.res_groups
  | "ir_sequences" => .fseqs src.ir_sequences
  | "module_states" => .fmodules src.module_states
  | "ir_model_data" => .fxids src.ir_model_data
  | _ => .fnone

/-- `_import_config_type`: check `os.path.exists`, read the document, extract
`data.get(config_type, [])` and dispatch through the `import_methods` table.
A name outside the dispatch table would only reach the `'No import method'`
branch if a file of that name existed; the modelled directory holds just the
five entity files, so any other name is the file-not-found case
(success, 0 records). -/
def import_config_type (store : Store) (config_type : String) (src : SourceDir) :
    Store × TypeResult :=
  match fileOf src config_type with
  | .fparams f => runTypeFile store config_type f import_config_params
  | .fgroups f => runTypeFile store config_type f import_user_groups
  | .fseqs f => runTypeFile store config_type f import_sequences
  | .fmodules f => runTypeFile store config_type f import_module_states
  | .fxids f => runTypeFile store config_type f import_external_ids
  | .fnone => (store, .ok config_type 0)

/-- Return dict of `import_system_configs`: full success, the stop-on-first-
failure dict (`failed_config_type`, `error`, `imported_count`), or the
top-level failure dict (missing manifest, or an exception escaping to the
outermost handler). -/
inductive ImportResult where
  | ok (imported_config_types : Nat) (total_imported_records : Nat)
      (results : List TypeResult)
  | typeFailure (failed_config_type : String) (error : String) (imported_count : Nat)
  | failure (error : String)
deriving DecidableEq, Repr

/-- The fixed `import_order` list of `import_system_configs`. -/
def import_order : List String :=
  ["ir_config_parameters", "res_groups", "ir_sequences", "module_states", "ir_model_data"]

/-- The `for config_type in import_order` loop: accumulate `imported_count`
and `results`, stop and report on the first per-type failure. -/
def runImportOrder : Store → SourceDir → Nat → List TypeResult → List String →
    Store × ImportResult
  | store, _, acc, res, [] => (store, .ok import_order.length acc res)
  | store, src, acc, res, ty :: rest =>
    match import_config_type store ty src with
    | (st, .ok c n) => runImportOrder st src (acc + n) (res ++ [.ok c n]) rest
    | (st, .err _ e) => (st, .typeFailure ty e acc)

/-- `import_system_configs`: read the manifest (absent file or empty mapping
is falsy and rejected; a parse error propagates to the outermost handler),
then run the fixed import order. -/
def import_system_configs (store : Store) (src : SourceDir) : Store × ImportResult :=
  match src.manifest with
  | .corrupt e => (store, .failure e)
  | .absent => (store, .failure "No manifest file found or invalid manifest")
  | .good nonempty =>
    if nonempty then runImportOrder store src 0 [] import_order
    else (store, .failure "No manifest file found or invalid manifest")

/-- Sequential run of a list of types, summing the per-type counts: the
reference point for what a halted run has applied. -/
def runPrefix : Store → SourceDir → List String → Store × Nat
  | st, _, [] => (st, 0)
  | st, src, ty :: rest =>
    let p := import_config_type st ty src
    let q := runPrefix p.1 src rest
    (q.1, p.2.count + q.2)

/-- Whether every type in the list reports success when run sequentially. -/
def prefixOk : Store → SourceDir → List String → Bool
  | _, _, [] => true
  | st, src, ty :: rest =>
    match import_config_type st ty src with
    | (st', .ok _ _) => prefixOk st' src rest
    | (_, .err _ _) => false

/-- Whether a file exists for `os.path.exists` (a corrupt file exists). -/
def filePresent : YamlFile α → Bool
  | .absent => false
  | _ => true

/-- `os.path.exists(os.path.join(path, file_name))` for the six known names. -/
def fileExistsIn (src : SourceDir) : String → Bool
  | "manifest.yml" => filePresent src.manifest
  | "ir_config_parameters.yml" => filePresent src.ir_config_parameters
  | "ir_sequences.yml" => filePresent src.ir_sequences
  | "res_groups.yml" => filePresent src.res_groups
  | "ir_model_data.yml" => filePresent src.ir_model_data
  | "module_states.yml" => filePresent src.module_states
  | _ => false

/-- `required_files` of `validate_import_path`. -/
def required_files : List String := ["manifest.yml"]

/-- `optional_files` of `validate_import_path`. -/
def optional_files : List String :=
  ["ir_config_parameters.yml", "ir_sequences.yml", "res_groups.yml",
   "ir_model_data.yml", "module_states.yml"]

/-- Return dict of `validate_import_path`. -/
inductive ValidationResult where
  | invalid (message : String)
  | valid (message : String) (missing_optional : List String)
deriving DecidableEq, Repr

/-- `validate_import_path` from `config_factory.py`: filesystem checks only,
no record-store argument because the Python body never touches `self.env`. -/
def validate_import_path (src : SourceDir) : ValidationResult :=
  let missing_required := required_files.filter (fun f => ! fileExistsIn src f)
  let missing_optional := optional_files.filter (fun f => ! fileExistsIn src f)
  if ¬ missing_required.isEmpty then
    .invalid ("Required files missing: " ++ String.intercalate ", " missing_required)
  else
    .valid "Import path is valid" missing_optional

/-- A ConfigParameter record that survives its per-record `try` block: both
`key` and `value` are present. -/
def wfParam (d : ParamRecord) : Bool := d.key.isSome && d.value.isSome

/-- The key/value pairs of the records of a ConfigParameter document that
reach the store (ill-formed records are skipped by the per-record handler). -/
def kvOf (ds : List ParamRecord) : List (String × String) :=
  ds.filterMap (fun d =>
    match d.key, d.value with
    | some k, some v => some (k, v)
    | _, _ => none)

/-- Whether the live parameter collection holds an entry for `k`
(the `if existing:` test after `search([('key','=',k)])`). -/
def hasKey (ps : List LiveParam) (k : String) : Bool :=
  ps.any (fun p => decide (p.key = k))

/-- The effect of `existing.value = v` on one live parameter of a matched
recordset. -/
def updKV (k v : String) (p : LiveParam) : LiveParam :=
  if p.key = k then { key := p.key, value := v } else p

/-- Value carried by the last record of the kv list that names key `k`
(later records of one document overwrite earlier ones). -/
def lastVal : List (String × String) → String → Option String
  | [], _ => none
  | q :: t, k =>
    match lastVal t k with
    | some v => some v
    | none => if q.1 = k then some q.2 else none

/-- Rewrite one live parameter to the last value its key receives from the
kv list, if any. -/
def substLast (l : List (String × String)) (p : LiveParam) : LiveParam :=
  match lastVal l p.key with
  | some v => { key := p.key, value := v }
  | none => p

/-- The parameter loop restricted to the key/value pairs that act. -/
def runKV : List LiveParam → List (String × String) → List LiveParam
  | ps, [] => ps
  | ps, q :: t => runKV (applyKV ps q.1 q.2) t

/-- Whether one ModuleState record completes the compare path of
`_import_module_states` against the given store: its `name` is present,
names a live module, and its `state` is present to compare against. -/
def moduleCompared (store : Store) (r : ModuleRecord) : Bool :=
  match r.name with
  | none => false
  | some n => store.modules.any (fun m => decide (m.name = n)) && r.state.isSome

/-- An ExternalIdMapping record that survives its per-record `try` block:
both `module` and `name` are present for the composite search domain. -/
def wfXid (r : ModelDataRecord) : Bool := r.module.isSome && r.name.isSome

/-- Whether one ModuleState record raises inside its per-record `try` against
the given store: `name` missing raises while the search domain is built, and
`state` missing raises on `module_data['state']` — but only after the search
found a live module (the not-found branch never reads `state`). -/
def moduleFaults (store : Store) (r : ModuleRecord) : Bool :=
  match r.name with
  | none => true
  | some n => store.modules.any (fun m => decide (m.name = n)) && r.state.isNone

/-- An empty record store. -/
def store0 : Store := {}

/-- A source directory holding no file at all. -/
def noManifestDir : SourceDir :=
  { manifest := .absent, ir_config_parameters := .absent, res_groups := .absent,
    ir_sequences := .absent, module_states := .absent, ir_model_data := .absent }

/-- A source directory holding only a well-formed, non-empty manifest. -/
def onlyManifestDir : SourceDir :=
  { manifest := .good true, ir_config_parameters := .absent, res_groups := .absent,
    ir_sequences := .absent, module_states := .absent, ir_model_data := .absent }

/-- A source directory whose Sequence document is unparseable and whose other
entity documents are absent. -/
def corruptSeqDir : SourceDir :=
  { manifest := .good true, ir_config_parameters := .absent, res_groups := .absent,
    ir_sequences := .corrupt "unparseable sequence document",
    module_states := .absent, ir_model_data := .absent }

/-- A store holding one live sequence `S1` whose counter has advanced to 25. -/
def seqStore0 : Store :=
  { sequences := [{ code := "S1", name := "Seq One", number_next := 25 }] }

/-- A snapshot Sequence record for `S1` carrying an older counter value. -/
def seqRec0 : SeqRecord :=
  { code := some "S1", name := some "Seq One v2", number_next := some 10 }

/-- A store holding one live parameter and one live group and one module. -/
def mixedStore0 : Store :=
  { params := [{ key := "a", value := "old" }],
    groups := [{ name := "Sales" }],
    modules := [{ name := "sale", state := "installed" }] }

/-- A ConfigParameter document with one record whose `key` is missing. -/
def badParamDoc : List ParamRecord :=
  [{ key := some "a", value := some "1" },
   { value := some "orphan" },
   { key := some "b", value := some "2" }]

/-- A directory whose ConfigParameter document is `badParamDoc`. -/
def paramSrc0 : SourceDir :=
  { onlyManifestDir with ir_config_parameters := .good (some badParamDoc) }

/-! General lemmas about the per-type dispatcher and the import loop. -/

theorem import_config_type_src_congr (st : Store) (ty : String) (src src' : SourceDir)
    (h : fileOf src' ty = fileOf src ty) :
    import_config_type st ty src' = import_config_type st ty src := by
  unfold import_config_type
  rw [h]

theorem import_config_type_ctype (st : Store) (ty : String) (src : SourceDir) :
    (import_config_type st ty src).2.ctype = ty := by
  unfold import_config_type
  cases fileOf src ty with
  | fparams f => cases f <;> rfl
  | fgroups f => cases f <;> rfl
  | fseqs f => cases f <;> rfl
  | fmodules f => cases f <;> rfl
  | fxids f => cases f <;> rfl
  | fnone => rfl

theorem import_config_type_err_store (st : Store) (ty : String) (src : SourceDir)
    (a b : String) (h : (import_config_type st ty src).2 = .err a b) :
    (import_config_type st ty src).1 = st := by
  unfold import_config_type at h ⊢
  cases hf : fileOf src ty with
  | fparams f => rw [hf] at h; cases f <;> simp_all [runTypeFile]
  | fgroups f => rw [hf] at h; cases f <;> simp_all [runTypeFile]
  | fseqs f => rw [hf] at h; cases f <;> simp_all [runTypeFile]
  | fmodules f => rw [hf] at h; cases f <;> simp_all [runTypeFile]
  | fxids f => rw [hf] at h; cases f <;> simp_all [runTypeFile]
  | fnone => rw [hf] at h

theorem runImportOrder_src_congr : ∀ (ts : List String) (src src' : SourceDir),
    (∀ st ty, ty ∈ ts → import_config_type st ty src' = import_config_type st ty src) →
    ∀ st acc res, runImportOrder st src' acc res ts = runImportOrder st src acc res ts := by
  intro ts
  induction ts with
  | nil => intro src src' h st acc res; rfl
  | cons ty rest ih =>
    intro src src' h st acc res
    have h1 := h st ty (by simp)
    simp only [runImportOrder, h1]
    cases hx : import_config_type st ty src with
    | mk st1 r =>
      cases r with
      | ok c n =>
        exact ih src src' (fun st2 ty2 hm => h st2 ty2 (by simp [hm])) st1 (acc + n)
          (res ++ [TypeResult.ok c n])
      | err c e => rfl

theorem import_system_configs_src_congr (store : Store) (src src' : SourceDir)
    (hm : src'.manifest = src.manifest)
    (h : ∀ st ty, ty ∈ import_order →
      import_config_type st ty src' = import_config_type st ty src) :
    import_system_configs store src' = import_system_configs store src := by
  unfold import_system_configs
  rw [hm]
  cases src.manifest with
  | corrupt e => rfl
  | absent => rfl
  | good b =>
    cases b with
    | false => rfl
    | true => simpa using runImportOrder_src_congr import_order src src' h store 0 []

/-! Claim C5: missing or empty manifest fails up front, store untouched. -/

/-- C5: when the manifest document is absent or parses to an empty mapping,
`import_system_configs` returns the missing-manifest error and the returned
store is exactly the input store — no record-store operation took place. -/
theorem missing_manifest_fails_before_store_access (store : Store) (src : SourceDir)
    (h : src.manifest = .absent ∨ src.manifest = .good false) :
    import_system_configs store src =
      (store, .failure "No manifest file found or invalid manifest") := by
  rcases h with h | h <;> simp [import_system_configs, h]

/-- C5 witness: the fully absent directory is rejected with the manifest
error and the empty store comes back unchanged. -/
theorem missing_manifest_fails_before_store_access_witness :
    import_system_configs store0 noManifestDir =
      (store0, .failure "No manifest file found or invalid manifest") :=
  missing_manifest_fails_before_store_access store0 noManifestDir (Or.inl rfl)

/-! Claim C9: validator behaviour. -/

/-- C9: `validate_import_path` (which takes no record store at all) reports
invalid with a message naming `manifest.yml` exactly when the manifest file
is absent; otherwise it reports valid together with the optional entity
document names that are absent, and on a directory holding only
`manifest.yml` that list is all five optional names. -/
theorem validate_import_path_spec (src : SourceDir) :
    (src.manifest = .absent →
      validate_import_path src = .invalid "Required files missing: manifest.yml") ∧
    (src.manifest ≠ .absent →
      validate_import_path src =
        .valid "Import path is valid"
          (optional_files.filter (fun f => ! fileExistsIn src f))) ∧
    validate_import_path onlyManifestDir = .valid "Import path is valid" optional_files := by
  refine ⟨?_, ?_, ?_⟩
  · intro h
    simp [validate_import_path, required_files, fileExistsIn, h, filePresent]
    rfl
  · intro h
    have hp : filePresent src.manifest = true := by
      cases hm : src.manifest <;> simp_all [filePresent]
    simp [validate_import_path, required_files, fileExistsIn, hp]
  · rfl

/-- C9 witness: concrete directories for both validator outcomes. -/
theorem validate_import_path_spec_witness :
    validate_import_path noManifestDir = .invalid "Required files missing: manifest.yml" ∧
    validate_import_path onlyManifestDir =
      .valid "Import path is valid"
        (optional_files.filter (fun f => ! fileExistsIn onlyManifestDir f)) :=
  ⟨(validate_import_path_spec noManifestDir).1 rfl,
   (validate_import_path_spec onlyManifestDir).2.1 (by simp [onlyManifestDir])⟩

/-! Claim C8: ModuleState import is observational. -/

theorem module_fold_const : ∀ (ds : List ModuleRecord) (st : Store) (n : Nat),
    ds.foldl moduleStep (st, n) =
      (st, n + (ds.filter (fun r => moduleCompared st r)).length) := by
  intro ds
  induction ds with
  | nil => intro st n; simp
  | cons r t ih =>
    intro st n
    show List.foldl moduleStep (moduleStep (st, n) r) t = _
    cases hn : r.name with
    | none =>
      simp [moduleStep, hn, ih, List.filter_cons, moduleCompared]
    | some nm =>
      cases hf : st.modules.any (fun m => decide (m.name = nm)) with
      | false =>
        simp [moduleStep, hn, hf, ih, List.filter_cons, moduleCompared]
      | true =>
        cases hs : r.state with
        | none =>
          simp [moduleStep, hn, hf, hs, ih, List.filter_cons, moduleCompared]
        | some s =>
          simp [moduleStep, hn, hf, hs, ih, List.filter_cons, moduleCompared]
          omega

/-- C8: `_import_module_states` returns the store exactly as it received it —
no module record is created or written — and its count is the number of
snapshot records that were actually compared: records whose `name` is present
and names a live module and whose snapshot `state` is present.  Records
naming no live module are only logged and not counted. -/
theorem module_state_import_never_mutates (store : Store) (ds : List ModuleRecord) :
    import_module_states store ds =
      (store, (ds.filter (fun r => moduleCompared store r)).length) := by
  show ds.foldl moduleStep (store, 0) = _
  rw [module_fold_const]
  simp

/-! Claim C10: UserGroup import counts only created groups. -/

theorem group_fold_length : ∀ (ds : List GroupRecord) (gs : List LiveGroup) (n : Nat),
    (ds.foldl groupStep (gs, n)).1.length + n =
      gs.length + (ds.foldl groupStep (gs, n)).2 := by
  intro ds
  induction ds with
  | nil => intro gs n; simp
  | cons r t ih =>
    intro gs n
    show (List.foldl groupStep (groupStep (gs, n) r) t).1.length + n = _
    cases hn : r.name with
    | none => simpa [groupStep, hn] using ih gs n
    | some nm =>
      cases hf : gs.any (fun g => decide (g.name = nm)) with
      | true => simpa [groupStep, hn, hf] using ih gs n
      | false =>
        have := ih (gs ++ [{ name := nm }]) (n + 1)
        simp [groupStep, hn, hf] at this ⊢
        omega

/-- C10: the UserGroup count is exactly the number of groups newly created:
the live group collection grows by the reported count (all other collections
untouched), a record whose `name` already exists is skipped with no mutation
and contributes 0, and a record with a fresh `name` appends one minimal group
and contributes 1. -/
theorem user_group_count_counts_only_created (store : Store) (ds : List GroupRecord)
    (r : GroupRecord) (nm : String) :
    (import_user_groups store ds).1.groups.length =
      store.groups.length + (import_user_groups store ds).2 ∧
    (import_user_groups store ds).1.params = store.params ∧
    (import_user_groups store ds).1.sequences = store.sequences ∧
    (import_user_groups store ds).1.model_data = store.model_data ∧
    (import_user_groups store ds).1.modules = store.modules ∧
    (r.name = some nm →
      (store.groups.any (fun g => decide (g.name = nm)) = true →
        import_user_groups store [r] = (store, 0)) ∧
      (store.groups.any (fun g => decide (g.name = nm)) = false →
        (import_user_groups store [r]).1.groups = store.groups ++ [{ name := nm }] ∧
        (import_user_groups store [r]).2 = 1)) := by
  refine ⟨?_, rfl, rfl, rfl, rfl, ?_⟩
  · have := group_fold_length ds store.groups 0
    simpa [import_user_groups] using this
  · intro hn
    constructor
    · intro hf
      simp [import_user_groups, groupStep, hn, hf]
    · intro hf
      simp [import_user_groups, groupStep, hn, hf]

/-- C10 witness: against a store holding group `Sales`, importing a
same-named record is a counted-zero no-op and a fresh record counts 1. -/
theorem user_group_count_counts_only_created_witness :
    import_user_groups mixedStore0 [{ name := some "Sales" }] = (mixedStore0, 0) ∧
    (import_user_groups mixedStore0 [{ name := some "HR" }]).1.groups =
      mixedStore0.groups ++ [{ name := "HR" }] ∧
    (import_user_groups mixedStore0 [{ name := some "HR" }]).2 = 1 :=
  ⟨((user_group_count_counts_only_created mixedStore0 []
      { name := some "Sales" } "Sales").2.2.2.2.2 rfl).1 (by decide),
   ((user_group_count_counts_only_created mixedStore0 []
      { name := some "HR" } "HR").2.2.2.2.2 rfl).2 (by decide)⟩

/-! Claim C6: absent entity documents are zero records, not an error. -/

/-- C6: for each entity type, an absent document yields a per-type success
with 0 imported records and an unchanged store, and a whole import run on a
directory where that document is absent is indistinguishable from one where
the document is present but holds an empty mapping (zero records): the run
proceeds through the remaining types either way. -/
theorem absent_documents_import_zero_records (store : Store) (src : SourceDir) :
    (import_config_type store "ir_config_parameters"
        { src with ir_config_parameters := .absent } =
      (store, .ok "ir_config_parameters" 0) ∧
     import_config_type store "res_groups" { src with res_groups := .absent } =
      (store, .ok "res_groups" 0) ∧
     import_config_type store "ir_sequences" { src with ir_sequences := .absent } =
      (store, .ok "ir_sequences" 0) ∧
     import_config_type store "module_states" { src with module_states := .absent } =
      (store, .ok "module_states" 0) ∧
     import_config_type store "ir_model_data" { src with ir_model_data := .absent } =
      (store, .ok "ir_model_data" 0)) ∧
    (import_system_configs store { src with ir_config_parameters := .absent } =
      import_system_configs store { src with ir_config_parameters := .good none } ∧
     import_system_configs store { src with res_groups := .absent } =
      import_system_configs store { src with res_groups := .good none } ∧
     import_system_configs store { src with ir_sequences := .absent } =
      import_system_configs store { src with ir_sequences := .good none } ∧
     import_system_configs store { src with module_states := .absent } =
      import_system_configs store { src with module_states := .good none } ∧
     import_system_configs store { src with ir_model_data := .absent } =
      import_system_configs store { src with ir_model_data := .good none }) := by
  refine ⟨⟨rfl, rfl, rfl, rfl, rfl⟩, ?_, ?_, ?_, ?_, ?_⟩ <;>
    (refine import_system_configs_src_congr store _ _ rfl ?_
     intro st ty hty
     simp only [import_order, List.mem_cons, List.mem_singleton] at hty
     rcases hty with rfl | rfl | rfl | rfl | rfl | h <;> first | rfl | cases h)

/-! Claim C1: Sequence reconciliation protects the live counter. -/

theorem seqStep_cases (d : SeqRecord) (ss : List LiveSeq) (n : Nat) :
    (seqStep (ss, n) d).1 = ss ∨
    (∃ c, (seqStep (ss, n) d).1 =
        ss.map (fun s => if s.code = c then writeSeqFields d s else s)) ∨
    ∃ x, (seqStep (ss, n) d).1 = ss ++ [x] := by
  cases hc : d.code with
  | none => left; simp [seqStep, hc]
  | some c =>
    by_cases ha : ss.any (fun s => decide (s.code = c)) = true
    · exact Or.inr (Or.inl ⟨c, by simp [seqStep, hc, ha]⟩)
    · exact Or.inr (Or.inr ⟨createSeqFields c d, by simp [seqStep, hc, ha]⟩)

theorem seqStep_counter (d : SeqRecord) (ss : List LiveSeq) (n : Nat) :
    ss.length ≤ (seqStep (ss, n) d).1.length ∧
    ∀ i (hi : i < ss.length),
      ∃ hj : i < (seqStep (ss, n) d).1.length,
        ((seqStep (ss, n) d).1.get ⟨i, hj⟩).number_next =
          (ss.get ⟨i, hi⟩).number_next := by
  rcases seqStep_cases d ss n with h | ⟨c, h⟩ | ⟨x, h⟩
  · rw [h]
    exact ⟨le_refl _, fun i hi => ⟨hi, rfl⟩⟩
  · rw [h]
    refine ⟨by simp, fun i hi => ⟨by simpa using hi, ?_⟩⟩
    simp only [List.get_eq_getElem, List.getElem_map]
    split <;> rfl
  · rw [h]
    refine ⟨by simp only [List.length_append]; omega,
      fun i hi => ⟨by simp only [List.length_append]; omega, ?_⟩⟩
    simp only [List.get_eq_getElem]
    rw [List.getElem_append_left hi]

theorem seq_fold_counter : ∀ (ds : List SeqRecord) (ss : List LiveSeq) (n : Nat),
    ss.length ≤ (ds.foldl seqStep (ss, n)).1.length ∧
    ∀ i (hi : i < ss.length),
      ∃ hj : i < (ds.foldl seqStep (ss, n)).1.length,
        ((ds.foldl seqStep (ss, n)).1.get ⟨i, hj⟩).number_next =
          (ss.get ⟨i, hi⟩).number_next := by
  intro ds
  induction ds with
  | nil => intro ss n; exact ⟨le_refl _, fun i hi => ⟨hi, rfl⟩⟩
  | cons d t ih =>
    intro ss n
    simp only [List.foldl_cons]
    obtain ⟨h1, h2⟩ := seqStep_counter d ss n
    obtain ⟨g1, g2⟩ := ih (seqStep (ss, n) d).1 (seqStep (ss, n) d).2
    refine ⟨le_trans h1 g1, fun i hi => ?_⟩
    obtain ⟨hj1, e1⟩ := h2 i hi
    obtain ⟨hj2, e2⟩ := g2 i hj1
    exact ⟨hj2, by rw [e2, e1]⟩

/-- C1: Sequence reconciliation never changes a live `number_next` (every
pre-existing position keeps its counter across a whole document import); on a
single record whose `code` matches a live sequence, every matched sequence
receives every present field of the record except `number_next`, which stays,
and unmatched sequences are untouched; on a record whose `code` is fresh, a
new sequence is appended whose `number_next` is exactly the one given. -/
theorem sequence_reconcile_preserves_counter (store : Store) (ds : List SeqRecord)
    (r : SeqRecord) (c : String) :
    (∀ i (hi : i < store.sequences.length),
      ∃ hj : i < (import_sequences store ds).1.sequences.length,
        ((import_sequences store ds).1.sequences.get ⟨i, hj⟩).number_next =
          (store.sequences.get ⟨i, hi⟩).number_next) ∧
    (r.code = some c →
      ((∃ s ∈ store.sequences, s.code = c) →
        (import_sequences store [r]).1.sequences.length = store.sequences.length ∧
        ∀ i (hi : i < store.sequences.length),
          ∃ hj : i < (import_sequences store [r]).1.sequences.length,
            (((store.sequences.get ⟨i, hi⟩).code = c →
              ((import_sequences store [r]).1.sequences.get ⟨i, hj⟩).name =
                  r.name.getD (store.sequences.get ⟨i, hi⟩).name ∧
              ((import_sequences store [r]).1.sequences.get ⟨i, hj⟩).prefix_ =
                  r.prefix_.getD (store.sequences.get ⟨i, hi⟩).prefix_ ∧
              ((import_sequences store [r]).1.sequences.get ⟨i, hj⟩).suffix =
                  r.suffix.getD (store.sequences.get ⟨i, hi⟩).suffix ∧
              ((import_sequences store [r]).1.sequences.get ⟨i, hj⟩).padding =
                  r.padding.getD (store.sequences.get ⟨i, hi⟩).padding ∧
              ((import_sequences store [r]).1.sequences.get ⟨i, hj⟩).number_increment =
                  r.number_increment.getD (store.sequences.get ⟨i, hi⟩).number_increment ∧
              ((import_sequences store [r]).1.sequences.get ⟨i, hj⟩).active =
                  r.active.getD (store.sequences.get ⟨i, hi⟩).active ∧
              ((import_sequences store [r]).1.sequences.get ⟨i, hj⟩).code = c ∧
              ((import_sequences store [r]).1.sequences.get ⟨i, hj⟩).number_next =
                  (store.sequences.get ⟨i, hi⟩).number_next) ∧
            ((store.sequences.get ⟨i, hi⟩).code ≠ c →
              (import_sequences store [r]).1.sequences.get ⟨i, hj⟩ =
                store.sequences.get ⟨i, hi⟩))) ∧
      ((∀ s ∈ store.sequences, s.code ≠ c) →
        ∃ sNew, (import_sequences store [r]).1.sequences = store.sequences ++ [sNew] ∧
          sNew.code = c ∧ ∀ nn, r.number_next = some nn → sNew.number_next = nn)) := by
  refine ⟨fun i hi => (seq_fold_counter ds store.sequences 0).2 i hi, fun hc => ⟨?_, ?_⟩⟩
  · intro hfound
    have hany : store.sequences.any (fun s => decide (s.code = c)) = true := by
      rw [List.any_eq_true]
      obtain ⟨s, hs, he⟩ := hfound
      exact ⟨s, hs, by simpa using he⟩
    have hrun : (import_sequences store [r]).1.sequences =
        store.sequences.map (fun s => if s.code = c then writeSeqFields r s else s) := by
      simp [import_sequences, seqStep, hc, hany]
    have hget : ∀ i (hi : i < store.sequences.length)
        (hj : i < (import_sequences store [r]).1.sequences.length),
        (import_sequences store [r]).1.sequences.get ⟨i, hj⟩ =
          (if (store.sequences.get ⟨i, hi⟩).code = c
           then writeSeqFields r (store.sequences.get ⟨i, hi⟩)
           else store.sequences.get ⟨i, hi⟩) := by
      intro i hi hj
      have hcast := List.get_of_eq hrun ⟨i, hj⟩
      rw [hcast]
      simp only [List.get_eq_getElem, Fin.coe_cast, List.getElem_map]
    refine ⟨by rw [hrun]; simp, fun i hi => ⟨by rw [hrun]; simpa using hi, ?_, ?_⟩⟩
    · intro hcode
      rw [hget i hi, if_pos hcode]
      refine ⟨rfl, rfl, rfl, rfl, rfl, rfl, ?_, rfl⟩
      show r.code.getD (store.sequences.get ⟨i, hi⟩).code = c
      rw [hc]
      rfl
    · intro hne
      rw [hget i hi, if_neg hne]
  · intro hnone
    have hany : store.sequences.any (fun s => decide (s.code = c)) = false := by
      rw [List.any_eq_false]
      intro s hs
      simpa using hnone s hs
    refine ⟨createSeqFields c r, ?_, rfl, ?_⟩
    · simp [import_sequences, seqStep, hc, hany]
    · intro nn hnn
      simp [createSeqFields, hnn]

/-- C1 witness: re-importing snapshot `S1` (counter 10) against a live `S1`
whose counter is 25 keeps 25; importing it into an empty store creates `S1`
with counter exactly 10. -/
theorem sequence_reconcile_preserves_counter_witness :
    (∃ hj : 0 < (import_sequences seqStore0 [seqRec0]).1.sequences.length,
      ((import_sequences seqStore0 [seqRec0]).1.sequences.get ⟨0, hj⟩).number_next =
        (seqStore0.sequences.get ⟨0, by decide⟩).number_next) ∧
    (∃ sNew, (import_sequences store0 [seqRec0]).1.sequences = store0.sequences ++ [sNew] ∧
      sNew.code = "S1" ∧ ∀ nn, seqRec0.number_next = some nn → sNew.number_next = nn) :=
  ⟨(sequence_reconcile_preserves_counter seqStore0 [seqRec0] seqRec0 "S1").1 0 (by decide),
   ((sequence_reconcile_preserves_counter store0 [] seqRec0 "S1").2 rfl).2
     (by intro s hs hc; cases hs)⟩

/-! Claim C4: record-level faults are skipped without aborting the type. -/

theorem paramStep_not_wf (acc : List LiveParam × Nat) (d : ParamRecord)
    (h : wfParam d = false) : paramStep acc d = acc := by
  cases hk : d.key <;> cases hv : d.value <;> simp_all [paramStep, wfParam]

theorem params_foldl_filter : ∀ (ds : List ParamRecord) (acc : List LiveParam × Nat),
    ds.foldl paramStep acc = (ds.filter wfParam).foldl paramStep acc := by
  intro ds
  induction ds with
  | nil => intro acc; rfl
  | cons d t ih =>
    intro acc
    by_cases h : wfParam d = true
    · simp [List.filter_cons, h, ih]
    · have h' : wfParam d = false := by simpa using h
      simp [List.filter_cons, h', paramStep_not_wf _ _ h', ih]

theorem params_foldl_count : ∀ (ds : List ParamRecord) (ps : List LiveParam) (n : Nat),
    (ds.foldl paramStep (ps, n)).2 = n + (ds.filter wfParam).length := by
  intro ds
  induction ds with
  | nil => intro ps n; simp
  | cons d t ih =>
    intro ps n
    cases hk : d.key with
    | none =>
      have h' : wfParam d = false := by simp [wfParam, hk]
      simp [paramStep, hk, List.filter_cons, h', ih]
    | some k =>
      cases hv : d.value with
      | none =>
        have h' : wfParam d = false := by simp [wfParam, hk, hv]
        simp [paramStep, hk, hv, List.filter_cons, h', ih]
      | some v =>
        have h' : wfParam d = true := by simp [wfParam, hk, hv]
        simp [paramStep, hk, hv, List.filter_cons, h', ih]
        omega

theorem seqs_foldl_filter : ∀ (es : List SeqRecord) (acc : List LiveSeq × Nat),
    es.foldl seqStep acc = (es.filter (fun r => r.code.isSome)).foldl seqStep acc := by
  intro es
  induction es with
  | nil => intro acc; rfl
  | cons e t ih =>
    intro acc
    cases hc : e.code with
    | none => simp [List.filter_cons, hc, seqStep, ih]
    | some c => simp [List.filter_cons, hc, ih]

theorem seqs_foldl_count : ∀ (es : List SeqRecord) (ss : List LiveSeq) (n : Nat),
    (es.foldl seqStep (ss, n)).2 = n + (es.filter (fun r => r.code.isSome)).length := by
  intro es
  induction es with
  | nil => intro ss n; simp
  | cons e t ih =>
    intro ss n
    cases hc : e.code with
    | none => simp [seqStep, hc, List.filter_cons, ih]
    | some c =>
      cases ha : ss.any (fun s => decide (s.code = c)) <;>
        (simp [seqStep, hc, ha, List.filter_cons, ih]; omega)

theorem groups_foldl_filter : ∀ (gs : List GroupRecord) (acc : List LiveGroup × Nat),
    gs.foldl groupStep acc = (gs.filter (fun r => r.name.isSome)).foldl groupStep acc := by
  intro gs
  induction gs with
  | nil => intro acc; rfl
  | cons g t ih =>
    intro acc
    cases hn : g.name with
    | none => simp [List.filter_cons, hn, groupStep, ih]
    | some nm => simp [List.filter_cons, hn, ih]

theorem xidStep_not_wf (acc : List LiveModelData × Nat) (r : ModelDataRecord)
    (h : wfXid r = false) : xidStep acc r = acc := by
  cases hm : r.module <;> cases hn : r.name <;> simp_all [xidStep, wfXid]

theorem xids_foldl_filter : ∀ (xs : List ModelDataRecord) (acc : List LiveModelData × Nat),
    xs.foldl xidStep acc = (xs.filter wfXid).foldl xidStep acc := by
  intro xs
  induction xs with
  | nil => intro acc; rfl
  | cons x t ih =>
    intro acc
    by_cases h : wfXid x = true
    · simp [List.filter_cons, h, ih]
    · have h' : wfXid x = false := by simpa using h
      simp [List.filter_cons, h', xidStep_not_wf _ _ h', ih]

theorem xids_foldl_count : ∀ (xs : List ModelDataRecord) (xd : List LiveModelData) (n : Nat),
    (xs.foldl xidStep (xd, n)).2 = n + (xs.filter wfXid).length := by
  intro xs
  induction xs with
  | nil => intro xd n; simp
  | cons x t ih =>
    intro xd n
    cases hm : x.module with
    | none =>
      have h' : wfXid x = false := by simp [wfXid, hm]
      simp [xidStep, hm, List.filter_cons, h', ih]
    | some m =>
      cases hn : x.name with
      | none =>
        have h' : wfXid x = false := by simp [wfXid, hm, hn]
        simp [xidStep, hm, hn, List.filter_cons, h', ih]
      | some nm =>
        have h' : wfXid x = true := by simp [wfXid, hm, hn]
        cases ha : xd.any (fun y => decide (y.module = m) && decide (y.name = nm)) <;>
          (simp [xidStep, hm, hn, ha, List.filter_cons, h', ih]; omega)

theorem moduleCompared_and_not_faults (store : Store) (r : ModuleRecord) :
    (moduleCompared store r && ! moduleFaults store r) = moduleCompared store r := by
  cases hn : r.name with
  | none => simp [moduleCompared, moduleFaults, hn]
  | some n =>
    cases ha : store.modules.any (fun m => decide (m.name = n)) with
    | false => simp [moduleCompared, moduleFaults, hn, ha]
    | true =>
      cases hs : r.state with
      | none => simp [moduleCompared, moduleFaults, hn, ha, hs]
      | some s => simp [moduleCompared, moduleFaults, hn, ha, hs]

/-- C4 counterexample: the claim as stated is false for UserGroup.  A
two-record group document whose first record lacks `name` (the only record
whose reconciliation raises) is imported against a store already holding
group `Sales`: the fault-free `Sales` record also goes uncounted (skipped by
design), so the count is 0, not the 1 the claim's "excludes exactly the
failed records" demands. -/
theorem record_level_faults_counterexample :
    (import_user_groups mixedStore0
        [{ name := none }, { name := some "Sales" }]).2 = 0 ∧
    (([{ name := none }, { name := some "Sales" }] : List GroupRecord).filter
        (fun r => r.name.isSome)).length = 1 :=
  ⟨rfl, rfl⟩

/-- C4 (amended): for every entity type, a record that raises inside the
per-record `try` (ConfigParameter missing `key`/`value`, Sequence missing
`code`, UserGroup missing `name`, ExternalIdMapping missing `module`/`name`,
ModuleState missing `name`, or found but missing `state`) is skipped without
aborting its type: the run equals the run on the document with the faulty
records removed, and the type still reports success.  The count excludes
exactly the failed records for ConfigParameter, Sequence and
ExternalIdMapping; for UserGroup it further excludes fault-free records whose
name already exists (only creations count), and for ModuleState it counts
exactly the fault-free records that were compared against a live module. -/
theorem record_level_faults_skip_only_that_record (store : Store)
    (ds : List ParamRecord) (es : List SeqRecord) (gs : List GroupRecord)
    (xs : List ModelDataRecord) (ms : List ModuleRecord) :
    import_config_params store ds = import_config_params store (ds.filter wfParam) ∧
    import_sequences store es = import_sequences store (es.filter (fun r => r.code.isSome)) ∧
    import_user_groups store gs =
      import_user_groups store (gs.filter (fun r => r.name.isSome)) ∧
    import_external_ids store xs = import_external_ids store (xs.filter wfXid) ∧
    import_module_states store ms =
      import_module_states store (ms.filter (fun r => ! moduleFaults store r)) ∧
    (import_config_params store ds).2 = (ds.filter wfParam).length ∧
    (import_sequences store es).2 = (es.filter (fun r => r.code.isSome)).length ∧
    (import_external_ids store xs).2 = (xs.filter wfXid).length ∧
    (import_user_groups store gs).1.groups.length =
      store.groups.length + (import_user_groups store gs).2 ∧
    (import_module_states store ms).2 =
      (ms.filter (fun r => moduleCompared store r)).length ∧
    (∀ src ds2, src.ir_config_parameters = .good (some ds2) →
      (import_config_type store "ir_config_parameters" src).2 =
        .ok "ir_config_parameters" ((ds2.filter wfParam).length)) ∧
    (∀ src es2, src.ir_sequences = .good (some es2) →
      (import_config_type store "ir_sequences" src).2 =
        .ok "ir_sequences" ((es2.filter (fun r => r.code.isSome)).length)) ∧
    (∀ src gs2, src.res_groups = .good (some gs2) →
      (import_config_type store "res_groups" src).2 =
        .ok "res_groups" ((import_user_groups store gs2).2)) ∧
    (∀ src xs2, src.ir_model_data = .good (some xs2) →
      (import_config_type store "ir_model_data" src).2 =
        .ok "ir_model_data" ((xs2.filter wfXid).length)) ∧
    (∀ src ms2, src.module_states = .good (some ms2) →
      (import_config_type store "module_states" src).2 =
        .ok "module_states" ((ms2.filter (fun r => moduleCompared store r)).length)) := by
  refine ⟨?_, ?_, ?_, ?_, ?_, ?_, ?_, ?_, ?_, ?_, ?_, ?_, ?_, ?_, ?_⟩
  · simp [import_config_params, params_foldl_filter ds]
  · simp [import_sequences, seqs_foldl_filter es]
  · simp [import_user_groups, groups_foldl_filter gs]
  · simp [import_external_ids, xids_foldl_filter xs]
  · show ms.foldl moduleStep (store, 0) =
      (ms.filter (fun r => ! moduleFaults store r)).foldl moduleStep (store, 0)
    rw [module_fold_const, module_fold_const, List.filter_filter]
    rw [List.filter_congr (fun r _ => moduleCompared_and_not_faults store r)]
  · simpa [import_config_params] using params_foldl_count ds store.params 0
  · simpa [import_sequences] using seqs_foldl_count es store.sequences 0
  · simpa [import_external_ids] using xids_foldl_count xs store.model_data 0
  · simpa [import_user_groups] using group_fold_length gs store.groups 0
  · show (ms.foldl moduleStep (store, 0)).2 = _
    rw [module_fold_const]
    simp
  · intro src ds2 h
    have hfo : fileOf src "ir_config_parameters" = .fparams (.good (some ds2)) := by
      rw [show fileOf src "ir_config_parameters" = FileView.fparams src.ir_config_parameters
            from rfl, h]
    simp only [import_config_type, hfo, runTypeFile, docRecords, Option.getD]
    have := params_foldl_count ds2 store.params 0
    simp [import_config_params] at this
    simp [import_config_params, this]
  · intro src es2 h
    have hfo : fileOf src "ir_sequences" = .fseqs (.good (some es2)) := by
      rw [show fileOf src "ir_sequences" = FileView.fseqs src.ir_sequences from rfl, h]
    simp only [import_config_type, hfo, runTypeFile, docRecords, Option.getD]
    have := seqs_foldl_count es2 store.sequences 0
    simp [import_sequences] at this
    simp [import_sequences, this]
  · intro src gs2 h
    have hfo : fileOf src "res_groups" = .fgroups (.good (some gs2)) := by
      rw [show fileOf src "res_groups" = FileView.fgroups src.res_groups from rfl, h]
    simp only [import_config_type, hfo, runTypeFile, docRecords, Option.getD]
  · intro src xs2 h
    have hfo : fileOf src "ir_model_data" = .fxids (.good (some xs2)) := by
      rw [show fileOf src "ir_model_data" = FileView.fxids src.ir_model_data from rfl, h]
    simp only [import_config_type, hfo, runTypeFile, docRecords, Option.getD]
    have := xids_foldl_count xs2 store.model_data 0
    simp [import_external_ids] at this
    simp [import_external_ids, this]
  · intro src ms2 h
    have hfo : fileOf src "module_states" = .fmodules (.good (some ms2)) := by
      rw [show fileOf src "module_states" = FileView.fmodules src.module_states from rfl, h]
    simp only [import_config_type, hfo, runTypeFile, docRecords, Option.getD]
    have := module_fold_const ms2 store 0
    simp [import_module_states, this]

/-- C4 witness: a three-record parameter document whose middle record lacks
`key` still reports a per-type success, counting exactly the two good
records. -/
theorem record_level_faults_skip_only_that_record_witness :
    (import_config_type store0 "ir_config_parameters" paramSrc0).2 =
      .ok "ir_config_parameters" ((badParamDoc.filter wfParam).length) ∧
    (badParamDoc.filter wfParam).length = 2 :=
  ⟨(record_level_faults_skip_only_that_record store0 [] [] [] []
      []).2.2.2.2.2.2.2.2.2.2.1 paramSrc0 badParamDoc rfl,
   by decide⟩

/-! Claims C2 and C3: fixed processing order and type-level abort. -/

theorem runImportOrder_ok (src : SourceDir) : ∀ (ts : List String) (st : Store) (acc : Nat)
    (res : List TypeResult) (st' : Store) (k tot : Nat) (out : List TypeResult),
    runImportOrder st src acc res ts = (st', .ok k tot out) →
    out.map TypeResult.ctype = res.map TypeResult.ctype ++ ts ∧
    k = import_order.length := by
  intro ts
  induction ts with
  | nil =>
    intro st acc res st' k tot out h
    have h' : (st, ImportResult.ok import_order.length acc res) =
        (st', .ok k tot out) := h
    have h2 := congrArg Prod.snd h'
    injection h2 with hk htot hout
    subst hout
    exact ⟨by simp, hk.symm⟩
  | cons ty rest ih =>
    intro st acc res st' k tot out h
    simp only [runImportOrder] at h
    cases hx : import_config_type st ty src with
    | mk st1 r =>
      rw [hx] at h
      cases r with
      | ok c0 n =>
        have hc : c0 = ty := by
          have hn := import_config_type_ctype st ty src
          rw [hx] at hn
          simpa [TypeResult.ctype] using hn
        subst hc
        have h' : runImportOrder st1 src (acc + n) (res ++ [TypeResult.ok c0 n]) rest =
            (st', .ok k tot out) := h
        obtain ⟨h1, h2⟩ := ih st1 (acc + n) (res ++ [TypeResult.ok c0 n]) st' k tot out h'
        refine ⟨?_, h2⟩
        rw [h1]
        simp [TypeResult.ctype]
      | err c0 e0 =>
        have h' : (st1, ImportResult.typeFailure ty e0 acc) = (st', .ok k tot out) := h
        have h2 := congrArg Prod.snd h'
        simp at h2

theorem runImportOrder_halted (src : SourceDir) : ∀ (ts : List String), ts.Nodup →
    ∀ (st : Store) (acc : Nat) (res : List TypeResult) (st' : Store) (t e : String) (c : Nat),
    runImportOrder st src acc res ts = (st', .typeFailure t e c) →
    ∃ pre post, ts = pre ++ t :: post ∧ t ∉ pre ∧
      prefixOk st src pre = true ∧
      c = acc + (runPrefix st src pre).2 ∧
      st' = (runPrefix st src pre).1 ∧
      (import_config_type (runPrefix st src pre).1 t src).2 = .err t e := by
  intro ts
  induction ts with
  | nil =>
    intro _ st acc res st' t e c h
    have h' : (st, ImportResult.ok import_order.length acc res) =
        (st', .typeFailure t e c) := h
    have h2 := congrArg Prod.snd h'
    simp at h2
  | cons ty rest ih =>
    intro hnd st acc res st' t e c h
    simp only [runImportOrder] at h
    cases hx : import_config_type st ty src with
    | mk st1 r =>
      rw [hx] at h
      cases r with
      | ok c0 n =>
        have h' : runImportOrder st1 src (acc + n) (res ++ [TypeResult.ok c0 n]) rest =
            (st', .typeFailure t e c) := h
        obtain ⟨pre', post', e1, e2, e3, e4, e5, e6⟩ :=
          ih (List.nodup_cons.mp hnd).2 st1 (acc + n) (res ++ [TypeResult.ok c0 n])
            st' t e c h'
        have hrp : runPrefix st src (ty :: pre') =
            ((runPrefix st1 src pre').1, n + (runPrefix st1 src pre').2) := by
          simp [runPrefix, hx, TypeResult.count]
        refine ⟨ty :: pre', post', by rw [e1, List.cons_append], ?_, ?_, ?_, ?_, ?_⟩
        · have hty : ty ∉ rest := (List.nodup_cons.mp hnd).1
          have htmem : t ∈ rest := by rw [e1]; simp
          simp only [List.mem_cons, not_or]
          exact ⟨fun h2 => hty (h2 ▸ htmem), e2⟩
        · show prefixOk st src (ty :: pre') = true
          simp only [prefixOk]
          rw [hx]
          exact e3
        · rw [hrp, e4]
          omega
        · rw [hrp]
          exact e5
        · rw [hrp]
          exact e6
      | err c0 e0 =>
        have h' : (st1, ImportResult.typeFailure ty e0 acc) = (st', .typeFailure t e c) := h
        have hst := congrArg Prod.fst h'
        simp only at hst
        have h2 := congrArg Prod.snd h'
        injection h2 with ht he hc
        have hc0 : c0 = ty := by
          have hn := import_config_type_ctype st ty src
          rw [hx] at hn
          simpa [TypeResult.ctype] using hn
        have hs1 : st1 = st := by
          have hh := import_config_type_err_store st ty src c0 e0 (by rw [hx])
          rw [hx] at hh
          exact hh
        refine ⟨[], rest, by rw [ht]; rfl, by simp, rfl, ?_, ?_, ?_⟩
        · show c = acc + (runPrefix st src []).2
          rw [← hc]
          rfl
        · show st' = (runPrefix st src []).1
          rw [← hst, hs1]
          rfl
        · show (import_config_type (runPrefix st src []).1 t src).2 = .err t e
          have hz : (runPrefix st src []).1 = st := rfl
          rw [hz, ← ht, hx, ← he, hc0]

theorem runImportOrder_agree (src src' : SourceDir) (t : String) (post : List String) :
    ∀ (pre : List String) (st : Store) (acc : Nat) (res : List TypeResult),
    prefixOk st src pre = true →
    (∀ u ∈ pre, fileOf src' u = fileOf src u) →
    fileOf src' t = fileOf src t →
    (∃ e, (import_config_type (runPrefix st src pre).1 t src).2 = .err t e) →
    runImportOrder st src' acc res (pre ++ t :: post) =
      runImportOrder st src acc res (pre ++ t :: post) := by
  intro pre
  induction pre with
  | nil =>
    intro st acc res _ _ hft herr
    obtain ⟨e, he⟩ := herr
    have he' : (import_config_type st t src).2 = .err t e := he
    simp only [List.nil_append, runImportOrder]
    rw [import_config_type_src_congr st t src src' hft]
    cases hx : import_config_type st t src with
    | mk st1 r =>
      cases r with
      | ok c0 n => exact absurd he' (by rw [hx]; simp)
      | err c0 e0 => rfl
  | cons ty pre' ih =>
    intro st acc res hok hagree hft herr
    simp only [List.cons_append, runImportOrder]
    have h1 : import_config_type st ty src' = import_config_type st ty src :=
      import_config_type_src_congr st ty src src' (hagree ty (by simp))
    rw [h1]
    cases hx : import_config_type st ty src with
    | mk st1 r =>
      cases r with
      | err c0 e0 =>
        have hbad : prefixOk st src (ty :: pre') = false := by
          simp [prefixOk, hx]
        rw [hok] at hbad
      | ok c0 n =>
        show runImportOrder st1 src' (acc + n) (res ++ [TypeResult.ok c0 n]) (pre' ++ t :: post) =
          runImportOrder st1 src (acc + n) (res ++ [TypeResult.ok c0 n]) (pre' ++ t :: post)
        refine ih st1 (acc + n) (res ++ [TypeResult.ok c0 n]) ?_ ?_ hft ?_
        · have hq : prefixOk st src (ty :: pre') = prefixOk st1 src pre' := by
            simp [prefixOk, hx]
          rw [← hq]
          exact hok
        · exact fun u hu => hagree u (by simp [hu])
        · obtain ⟨e, he⟩ := herr
          refine ⟨e, ?_⟩
          have hrp : (runPrefix st src (ty :: pre')).1 = (runPrefix st1 src pre').1 := by
            simp [runPrefix, hx]
          rw [← hrp]
          exact he

/-- C2: the entity types of one import run are processed in the fixed order
of `import_order`: every successful run reports its per-type results exactly
in that order regardless of the input documents, the order is ConfigParameter,
UserGroup, Sequence, ModuleState, ExternalIdMapping, and ExternalIdMapping is
always last. -/
theorem import_runs_types_in_fixed_order (store : Store) (src : SourceDir) :
    (∀ st' k tot out, import_system_configs store src = (st', .ok k tot out) →
      out.map TypeResult.ctype = import_order ∧ k = import_order.length) ∧
    import_order = ["ir_config_parameters", "res_groups", "ir_sequences",
      "module_states", "ir_model_data"] ∧
    import_order.getLast? = some "ir_model_data" := by
  refine ⟨?_, rfl, rfl⟩
  intro st' k tot out h
  unfold import_system_configs at h
  cases hm : src.manifest with
  | corrupt e => rw [hm] at h; simp at h
  | absent => rw [hm] at h; simp at h
  | good b =>
    rw [hm] at h
    cases b with
    | false => simp at h
    | true =>
      replace h : runImportOrder store src 0 [] import_order = (st', .ok k tot out) := by
        simpa using h
      simpa using runImportOrder_ok src import_order store 0 [] st' k tot out h

/-- C2 witness: a concrete successful run (valid manifest, no entity
documents) reports the five types in exactly the fixed order. -/
theorem import_runs_types_in_fixed_order_witness :
    import_system_configs store0 onlyManifestDir =
      (store0, .ok 5 0
        [.ok "ir_config_parameters" 0, .ok "res_groups" 0, .ok "ir_sequences" 0,
         .ok "module_states" 0, .ok "ir_model_data" 0]) ∧
    ([TypeResult.ok "ir_config_parameters" 0, .ok "res_groups" 0, .ok "ir_sequences" 0,
      .ok "module_states" 0, .ok "ir_model_data" 0].map TypeResult.ctype = import_order ∧
      5 = import_order.length) :=
  ⟨rfl, (import_runs_types_in_fixed_order store0 onlyManifestDir).1 store0 5 0 _ rfl⟩

/-- C3: when an entity type fails at type level, the run halts there: the
failing type `t` splits the fixed order, every type before it completed
successfully, the reported count is exactly the records applied by those
completed prior types, the returned store is the one those prior types
produced (the failing type touched nothing), the result carries the failing
type name and its error, and the outcome is unchanged under arbitrary
replacement of every document of a type after `t` — no later type is
consulted. -/
theorem type_level_failure_halts_import (store : Store) (src : SourceDir)
    (st' : Store) (t e : String) (c : Nat)
    (h : import_system_configs store src = (st', .typeFailure t e c)) :
    ∃ pre post, import_order = pre ++ t :: post ∧ t ∉ pre ∧
      prefixOk store src pre = true ∧
      c = (runPrefix store src pre).2 ∧
      st' = (runPrefix store src pre).1 ∧
      (import_config_type (runPrefix store src pre).1 t src).2 = .err t e ∧
      (∀ src2, src2.manifest = src.manifest →
        (∀ u ∈ pre ++ [t], fileOf src2 u = fileOf src u) →
        import_system_configs store src2 = (st', .typeFailure t e c)) := by
  unfold import_system_configs at h
  cases hm : src.manifest with
  | corrupt e2 => rw [hm] at h; simp at h
  | absent => rw [hm] at h; simp at h
  | good b =>
    rw [hm] at h
    cases b with
    | false => simp at h
    | true =>
      replace h : runImportOrder store src 0 [] import_order = (st', .typeFailure t e c) := by
        simpa using h
      obtain ⟨pre, post, e1, e2, e3, e4, e5, e6⟩ :=
        runImportOrder_halted src import_order (by decide) store 0 [] st' t e c h
      refine ⟨pre, post, e1, e2, e3, by simpa using e4, e5, e6, ?_⟩
      intro src2 hm2 hag
      unfold import_system_configs
      rw [hm2]
      show runImportOrder store src2 0 [] import_order = (st', ImportResult.typeFailure t e c)
      have hagr := runImportOrder_agree src src2 t post pre store 0 []
        e3 (fun u hu => hag u (by simp [hu])) (hag t (by simp)) ⟨e, e6⟩
      rw [e1, hagr, ← e1]
      exact h

/-- C3 witness: with a corrupted Sequence document, the run halts at
`ir_sequences` with its parse error, count 0 from the two completed prior
types, and the ModuleState and ExternalIdMapping documents are never
consulted. -/
theorem type_level_failure_halts_import_witness :
    ∃ pre post, import_order = pre ++ "ir_sequences" :: post ∧ "ir_sequences" ∉ pre ∧
      prefixOk store0 corruptSeqDir pre = true ∧
      (0 : Nat) = (runPrefix store0 corruptSeqDir pre).2 ∧
      store0 = (runPrefix store0 corruptSeqDir pre).1 ∧
      (import_config_type (runPrefix store0 corruptSeqDir pre).1 "ir_sequences"
          corruptSeqDir).2 =
        .err "ir_sequences" "unparseable sequence document" ∧
      (∀ src2, src2.manifest = corruptSeqDir.manifest →
        (∀ u ∈ pre ++ ["ir_sequences"], fileOf src2 u = fileOf corruptSeqDir u) →
        import_system_configs store0 src2 =
          (store0, .typeFailure "ir_sequences" "unparseable sequence document" 0)) :=
  type_level_failure_halts_import store0 corruptSeqDir store0 "ir_sequences"
    "unparseable sequence document" 0 rfl

/-! Claim C7: ConfigParameter upsert and its idempotence. -/

theorem applyKV_hasKey (ps : List LiveParam) (k v : String) (h : hasKey ps k = true) :
    applyKV ps k v = ps.map (updKV k v) := by
  have h' : (ps.any fun p => decide (p.key = k)) = true := h
  unfold applyKV
  rw [if_pos h']
  rfl

theorem applyKV_not_hasKey (ps : List LiveParam) (k v : String) (h : hasKey ps k = false) :
    applyKV ps k v = ps ++ [{ key := k, value := v }] := by
  have h' : ¬ ((ps.any fun p => decide (p.key = k)) = true) := by
    intro hc
    have hc' : hasKey ps k = true := hc
    rw [h] at hc'
    exact Bool.noConfusion hc'
  unfold applyKV
  rw [if_neg h']

theorem updKV_key (k v : String) (p : LiveParam) : (updKV k v p).key = p.key := by
  unfold updKV
  split <;> rfl

theorem hasKey_map_updKV : ∀ (ps : List LiveParam) (k' v' k : String),
    hasKey (ps.map (updKV k' v')) k = hasKey ps k := by
  intro ps
  induction ps with
  | nil => intro k' v' k; rfl
  | cons p t ih =>
    intro k' v' k
    simp only [hasKey, List.map_cons, List.any_cons] at ih ⊢
    rw [updKV_key, ih]

theorem hasKey_applyKV_self (ps : List LiveParam) (k v : String) :
    hasKey (applyKV ps k v) k = true := by
  by_cases h : hasKey ps k = true
  · rw [applyKV_hasKey ps k v h, hasKey_map_updKV]
    exact h
  · rw [applyKV_not_hasKey ps k v (by simpa using h)]
    simp [hasKey]

theorem hasKey_applyKV_mono (ps : List LiveParam) (k' v' k : String)
    (h : hasKey ps k = true) : hasKey (applyKV ps k' v') k = true := by
  by_cases h2 : hasKey ps k' = true
  · rw [applyKV_hasKey ps k' v' h2, hasKey_map_updKV]
    exact h
  · rw [applyKV_not_hasKey ps k' v' (by simpa using h2)]
    simp only [hasKey, List.any_append]
    rw [show (ps.any fun p => decide (p.key = k)) = hasKey ps k from rfl, h]
    rfl

theorem runKV_hasKey_mono : ∀ (l : List (String × String)) (ps : List LiveParam) (k : String),
    hasKey ps k = true → hasKey (runKV ps l) k = true := by
  intro l
  induction l with
  | nil => intro ps k h; exact h
  | cons q t ih =>
    intro ps k h
    exact ih (applyKV ps q.1 q.2) k (hasKey_applyKV_mono ps q.1 q.2 k h)

theorem runKV_hasKey_of_mem : ∀ (l : List (String × String)) (ps : List LiveParam)
    (q : String × String), q ∈ l → hasKey (runKV ps l) q.1 = true := by
  intro l
  induction l with
  | nil => intro ps q h; cases h
  | cons q0 t ih =>
    intro ps q h
    rcases List.mem_cons.mp h with rfl | hmem
    · exact runKV_hasKey_mono t (applyKV ps q.1 q.2) q.1 (hasKey_applyKV_self ps q.1 q.2)
    · exact ih (applyKV ps q0.1 q0.2) q hmem

theorem substLast_nil (p : LiveParam) : substLast [] p = p := rfl

theorem substLast_updKV (t : List (String × String)) (k v : String) (p : LiveParam) :
    substLast t (updKV k v p) = substLast ((k, v) :: t) p := by
  have hkey : (updKV k v p).key = p.key := updKV_key k v p
  unfold substLast
  rw [hkey]
  cases hl : lastVal t p.key with
  | some w =>
    have h2 : lastVal ((k, v) :: t) p.key = some w := by
      simp only [lastVal]
      rw [hl]
    rw [h2]
  | none =>
    by_cases hp : p.key = k
    · have h2 : lastVal ((k, v) :: t) p.key = some v := by
        simp only [lastVal]
        rw [hl, if_pos hp.symm]
      rw [h2]
      unfold updKV
      rw [if_pos hp]
    · have h2 : lastVal ((k, v) :: t) p.key = none := by
        simp only [lastVal]
        rw [hl, if_neg (fun hc => hp hc.symm)]
      rw [h2]
      unfold updKV
      rw [if_neg hp]

theorem runKV_updates : ∀ (l : List (String × String)) (ps : List LiveParam),
    (∀ q ∈ l, hasKey ps q.1 = true) → runKV ps l = ps.map (substLast l) := by
  intro l
  induction l with
  | nil =>
    intro ps _
    have h2 : ps.map (substLast []) = ps := by
      rw [show ps.map (substLast []) = ps.map id from
        List.map_congr_left (fun a _ => substLast_nil a), List.map_id]
    rw [h2]
    rfl
  | cons q t ih =>
    intro ps h
    have hk : hasKey ps q.1 = true := h q (by simp)
    show runKV (applyKV ps q.1 q.2) t = ps.map (substLast (q :: t))
    rw [applyKV_hasKey ps q.1 q.2 hk]
    have hall : ∀ q2 ∈ t, hasKey (ps.map (updKV q.1 q.2)) q2.1 = true := by
      intro q2 hq2
      rw [hasKey_map_updKV]
      exact h q2 (by simp [hq2])
    rw [ih (ps.map (updKV q.1 q.2)) hall, List.map_map]
    exact List.map_congr_left (fun p _ => substLast_updKV t q.1 q.2 p)

theorem lastVal_none : ∀ (t : List (String × String)) (k : String),
    lastVal t k = none → ∀ q ∈ t, q.1 ≠ k := by
  intro t
  induction t with
  | nil => intro k _ q hq; cases hq
  | cons q0 t' ih =>
    intro k h q hq
    have hl : lastVal t' k = none := by
      simp only [lastVal] at h
      cases hl2 : lastVal t' k with
      | some w => rw [hl2] at h; exact Option.noConfusion h
      | none => rfl
    have hq0 : q0.1 ≠ k := by
      intro he
      simp only [lastVal] at h
      rw [hl, if_pos he] at h
      exact Option.noConfusion h
    rcases List.mem_cons.mp hq with rfl | hmem
    · exact hq0
    · exact ih k hl q hmem

theorem applyKV_preserve_other (ps : List LiveParam) (k' v' k v : String)
    (hne : k' ≠ k) (hinv : ∀ p ∈ ps, p.key = k → p.value = v) :
    ∀ p ∈ applyKV ps k' v', p.key = k → p.value = v := by
  intro p hp hpk
  by_cases h2 : hasKey ps k' = true
  · rw [applyKV_hasKey ps k' v' h2] at hp
    obtain ⟨q, hq, rfl⟩ := List.mem_map.mp hp
    have hqk : q.key = k := by rw [← updKV_key k' v' q]; exact hpk
    have hid : updKV k' v' q = q := by
      unfold updKV
      rw [if_neg (by rw [hqk]; exact Ne.symm hne)]
    rw [hid]
    exact hinv q hq hqk
  · rw [applyKV_not_hasKey ps k' v' (by simpa using h2)] at hp
    rcases List.mem_append.mp hp with hmem | hmem
    · exact hinv p hmem hpk
    · simp only [List.mem_singleton] at hmem
      rw [hmem] at hpk
      exact absurd hpk hne

theorem applyKV_self_inv (ps : List LiveParam) (k v : String) :
    ∀ p ∈ applyKV ps k v, p.key = k → p.value = v := by
  intro p hp hpk
  by_cases h2 : hasKey ps k = true
  · rw [applyKV_hasKey ps k v h2] at hp
    obtain ⟨q, hq, rfl⟩ := List.mem_map.mp hp
    unfold updKV at hpk ⊢
    by_cases hqk : q.key = k
    · rw [if_pos hqk]
    · rw [if_neg hqk] at hpk
      exact absurd hpk hqk
  · rw [applyKV_not_hasKey ps k v (by simpa using h2)] at hp
    rcases List.mem_append.mp hp with hmem | hmem
    · exfalso
      have hk : hasKey ps k = true := by
        unfold hasKey
        rw [List.any_eq_true]
        exact ⟨p, hmem, by simp [hpk]⟩
      simp_all
    · simp only [List.mem_singleton] at hmem
      rw [hmem]

theorem runKV_preserve : ∀ (t : List (String × String)) (qs : List LiveParam)
    (k v : String), (∀ q ∈ t, q.1 ≠ k) → (∀ p ∈ qs, p.key = k → p.value = v) →
    ∀ p ∈ runKV qs t, p.key = k → p.value = v := by
  intro t
  induction t with
  | nil => intro qs k v _ hinv; exact hinv
  | cons q0 t' ih =>
    intro qs k v hne hinv
    show ∀ p ∈ runKV (applyKV qs q0.1 q0.2) t', p.key = k → p.value = v
    exact ih (applyKV qs q0.1 q0.2) k v (fun q hq => hne q (by simp [hq]))
      (applyKV_preserve_other qs q0.1 q0.2 k v (hne q0 (by simp)) hinv)

theorem runKV_lastVal : ∀ (l : List (String × String)) (ps : List LiveParam) (p : LiveParam),
    p ∈ runKV ps l → ∀ v, lastVal l p.key = some v → p.value = v := by
  intro l
  induction l with
  | nil => intro ps p _ v hv; exact absurd hv (by simp [lastVal])
  | cons q t ih =>
    intro ps p hp v hv
    cases hl : lastVal t p.key with
    | some w =>
      have hvw : w = v := by
        simp only [lastVal] at hv
        rw [hl] at hv
        exact Option.some.inj hv
      rw [← hvw]
      exact ih (applyKV ps q.1 q.2) p hp w hl
    | none =>
      simp only [lastVal] at hv
      rw [hl] at hv
      by_cases hq : q.1 = p.key
      · rw [if_pos hq] at hv
        have hv2 : q.2 = v := Option.some.inj hv
        have hnot := lastVal_none t p.key hl
        have hinv : ∀ x ∈ applyKV ps q.1 q.2, x.key = p.key → x.value = q.2 := by
          intro x hx hxk
          exact applyKV_self_inv ps q.1 q.2 x hx (by rw [hxk, ← hq])
        rw [← hv2]
        exact runKV_preserve t (applyKV ps q.1 q.2) p.key q.2 hnot hinv p hp rfl
      · rw [if_neg hq] at hv
        exact absurd hv (by simp)

theorem runKV_idem (ps : List LiveParam) (l : List (String × String)) :
    runKV (runKV ps l) l = runKV ps l := by
  have hall : ∀ q ∈ l, hasKey (runKV ps l) q.1 = true :=
    fun q hq => runKV_hasKey_of_mem l ps q hq
  rw [runKV_updates l (runKV ps l) hall]
  have hfix : ∀ p ∈ runKV ps l, substLast l p = p := by
    intro p hp
    unfold substLast
    cases hl : lastVal l p.key with
    | none => rfl
    | some v =>
      have hv := runKV_lastVal l ps p hp v hl
      rw [← hv]
  have h2 : (runKV ps l).map (substLast l) = (runKV ps l).map id :=
    List.map_congr_left (fun a ha => hfix a ha)
  rw [h2, List.map_id]

theorem params_foldl_runKV : ∀ (ds : List ParamRecord) (ps : List LiveParam) (n : Nat),
    ds.foldl paramStep (ps, n) = (runKV ps (kvOf ds), n + (kvOf ds).length) := by
  intro ds
  induction ds with
  | nil => intro ps n; simp [kvOf, runKV]
  | cons d t ih =>
    intro ps n
    cases hk : d.key with
    | none =>
      have hkv : kvOf (d :: t) = kvOf t := by simp [kvOf, hk]
      simp [paramStep, hk, hkv, ih]
    | some k =>
      cases hv : d.value with
      | none =>
        have hkv : kvOf (d :: t) = kvOf t := by simp [kvOf, hk, hv]
        simp [paramStep, hk, hv, hkv, ih]
      | some v =>
        have hkv : kvOf (d :: t) = (k, v) :: kvOf t := by simp [kvOf, hk, hv]
        simp only [List.foldl_cons, paramStep, hk, hv]
        rw [ih (applyKV ps k v) (n + 1), hkv]
        simp only [runKV, List.length_cons, Prod.mk.injEq]
        exact ⟨trivial, by omega⟩

/-- C7: ConfigParameter reconciliation is an idempotent upsert: a record with
key `k` overwrites the value of every live parameter keyed `k` when one
exists (keys and all other entries untouched, no growth), and appends a new
parameter otherwise; and re-running any record list against the state the
first run produced returns that state unchanged (no duplicates) with the same
count. -/
theorem config_param_upsert_idempotent (store : Store) (ds : List ParamRecord)
    (r : ParamRecord) (k v : String) :
    (r.key = some k → r.value = some v →
      ((hasKey store.params k = true →
          (import_config_params store [r]).1.params.length = store.params.length ∧
          ∀ i (hi : i < store.params.length),
            ∃ hj : i < (import_config_params store [r]).1.params.length,
              ((import_config_params store [r]).1.params.get ⟨i, hj⟩).key =
                (store.params.get ⟨i, hi⟩).key ∧
              ((import_config_params store [r]).1.params.get ⟨i, hj⟩).value =
                (if (store.params.get ⟨i, hi⟩).key = k then v
                 else (store.params.get ⟨i, hi⟩).value)) ∧
       (hasKey store.params k = false →
          (import_config_params store [r]).1.params =
            store.params ++ [{ key := k, value := v }]))) ∧
    import_config_params (import_config_params store ds).1 ds =
      ((import_config_params store ds).1, (import_config_params store ds).2) := by
  constructor
  · intro hk hv
    have hrun : (import_config_params store [r]).1.params = applyKV store.params k v := by
      simp [import_config_params, paramStep, hk, hv]
    constructor
    · intro hhk
      rw [hrun, applyKV_hasKey store.params k v hhk]
      refine ⟨by simp, fun i hi => ⟨by simpa using hi, ?_, ?_⟩⟩
      · simp only [List.get_eq_getElem, List.getElem_map]
        exact updKV_key k v _
      · simp only [List.get_eq_getElem, List.getElem_map, updKV]
        split <;> rename_i hcond <;> simp [hcond]
    · intro hhk
      rw [hrun, applyKV_not_hasKey store.params k v hhk]
  · have h1 := params_foldl_runKV ds store.params 0
    have hps : (import_config_params store ds).1.params = runKV store.params (kvOf ds) := by
      simp [import_config_params, h1]
    have hcnt : (import_config_params store ds).2 = (kvOf ds).length := by
      simp [import_config_params, h1]
    have h3 : runKV (import_config_params store ds).1.params (kvOf ds) =
        (import_config_params store ds).1.params := by
      rw [hps]
      exact runKV_idem store.params (kvOf ds)
    rw [hcnt]
    show ({ (import_config_params store ds).1 with
            params := (ds.foldl paramStep ((import_config_params store ds).1.params, 0)).1 },
          (ds.foldl paramStep ((import_config_params store ds).1.params, 0)).2) =
        ((import_config_params store ds).1, (kvOf ds).length)
    rw [params_foldl_runKV ds (import_config_params store ds).1.params 0, h3]
    simp only [Prod.mk.injEq]
    exact ⟨trivial, by omega⟩

/-- C7 witness: upserting a fresh key appends exactly one parameter, and a
duplicate-free second run is evaluated inside the theorem application. -/
theorem config_param_upsert_idempotent_witness :
    (import_config_params mixedStore0 [{ key := some "z", value := some "9" }]).1.params =
      mixedStore0.params ++ [{ key := "z", value := "9" }] :=
  (((config_param_upsert_idempotent mixedStore0 []
      { key := some "z", value := some "9" } "z" "9").1 rfl rfl).2) (by decide)
